import Mathlib

/-!
Verification of the GrQuad geometry core.

A shallow embedding of `src/gpu/GrQuad.h` (quad classification, `GrQuad` /
`GrPerspQuad` value types, and the type-tracking quad list with a lazily
materialized w-channel) together with `modules/sksg/include/SkSGGeometryTransform.h`.

Conventions of the embedding:
* IEEE floats are modelled as exact rationals (`ℚ`); all claims under
  verification involve only exact values (1.0, 2.0, 0.5) where float and
  rational arithmetic agree.
* `SkTArray<float>` becomes `List ℚ`; `SkSTArray<1, QuadData<T>>` becomes
  `List (QuadData T)`; `sk_sp<T>` (a nullable smart pointer) becomes `Option`.
* The per-quad metadata type `T` of `GrTQuadList<T>` stays a type parameter;
  `GrQuadList` is the instance `T = Unit` (C++ `void`).
-/

/-- A 4-wide vector of floats, the `Sk4f` lanes / `float[4]` arrays of the
source, with floats modelled as exact rationals. -/
structure V4 where
  v0 : ℚ
  v1 : ℚ
  v2 : ℚ
  v3 : ℚ
deriving DecidableEq

instance : Inhabited V4 := ⟨⟨0, 0, 0, 0⟩⟩

/-- The `Sk4f(1.f)` constant vector (`kNoPerspectiveWs`). -/
def V4.ones : V4 := ⟨1, 1, 1, 1⟩

/-- Lane-wise product, `Sk4f::operator*`. -/
def V4.mul (a b : V4) : V4 := ⟨a.v0 * b.v0, a.v1 * b.v1, a.v2 * b.v2, a.v3 * b.v3⟩

/-- Lane-wise reciprocal, `Sk4f::invert()` (IEEE divide of 1 by each lane). -/
def V4.inv (a : V4) : V4 := ⟨1 / a.v0, 1 / a.v1, 1 / a.v2, 1 / a.v3⟩

/-- Horizontal minimum, `Sk4f::min()`. -/
def V4.minc (a : V4) : ℚ := min (min a.v0 a.v1) (min a.v2 a.v3)

/-- Horizontal maximum, `Sk4f::max()`. -/
def V4.maxc (a : V4) : ℚ := max (max a.v0 a.v1) (max a.v2 a.v3)

/-- Model of `SkRect`: an axis-aligned rectangle given by its four edge coordinates. -/
structure SkRect where
  fLeft : ℚ
  fTop : ℚ
  fRight : ℚ
  fBottom : ℚ
deriving DecidableEq

/-- Model of `GrQuadType`: the classification lattice
`kRect < kRectilinear < kStandard < kPerspective`. -/
inductive GrQuadType where
  | kRect
  | kRectilinear
  | kStandard
  | kPerspective
deriving DecidableEq, Fintype

/-- Numeric rank of a quad type; the C++ enum's underlying value. -/
def GrQuadType.toNat : GrQuadType → ℕ
  | .kRect => 0
  | .kRectilinear => 1
  | .kStandard => 2
  | .kPerspective => 3

instance : LT GrQuadType := ⟨fun a b => a.toNat < b.toNat⟩
instance : LE GrQuadType := ⟨fun a b => a.toNat ≤ b.toNat⟩

instance (a b : GrQuadType) : Decidable (a < b) :=
  inferInstanceAs (Decidable (a.toNat < b.toNat))

instance (a b : GrQuadType) : Decidable (a ≤ b) :=
  inferInstanceAs (Decidable (a.toNat ≤ b.toNat))

/-- The join of two quad types in the classification order. -/
instance : Max GrQuadType := ⟨fun a b => if a < b then b else a⟩

/-- Model of `GrQuad`: 4 points in triangle-strip order, no perspective weight. -/
structure GrQuad where
  fX : V4
  fY : V4
deriving DecidableEq

instance : Inhabited GrQuad := ⟨⟨default, default⟩⟩

/-- Model of `GrQuad::bounds()`: the axis-aligned bounding box of the four points. -/
def GrQuad.bounds (q : GrQuad) : SkRect :=
  ⟨q.fX.minc, q.fY.minc, q.fX.maxc, q.fY.maxc⟩

/-- Model of `GrPerspQuad`: 4 homogeneous points (x, y, w). -/
structure GrPerspQuad where
  fX : V4
  fY : V4
  fW : V4
deriving DecidableEq

instance : Inhabited GrPerspQuad := ⟨⟨default, default, default⟩⟩

/-- Model of `GrPerspQuad::hasPerspective()`: `(w4f() != Sk4f(1.f)).anyTrue()` —
true when any lane of the stored weights differs from 1. -/
def GrPerspQuad.hasPerspective (q : GrPerspQuad) : Bool :=
  decide (q.fW.v0 ≠ 1) || decide (q.fW.v1 ≠ 1) || decide (q.fW.v2 ≠ 1) ||
    decide (q.fW.v3 ≠ 1)

/-- Model of `GrPerspQuad::bounds(GrQuadType)`: bounding box of the four points,
performing the homogeneous divide (multiply by `iw4f()`) only when the
passed type is `kPerspective`. -/
def GrPerspQuad.bounds (q : GrPerspQuad) (type : GrQuadType) : SkRect :=
  if type = GrQuadType.kPerspective then
    let iw := q.fW.inv
    let x := q.fX.mul iw
    let y := q.fY.mul iw
    ⟨x.minc, y.minc, x.maxc, y.maxc⟩
  else
    ⟨q.fX.minc, q.fY.minc, q.fX.maxc, q.fY.maxc⟩

/-- Model of `QuadData<T>`: one list entry — 4 xs, 4 ys, and the metadata payload
(`T = Unit` plays the role of the `void` specialization, which has no
metadata field). -/
structure QuadData (T : Type) where
  fX : V4
  fY : V4
  fMetadata : T
deriving DecidableEq

instance {T : Type} [Inhabited T] : Inhabited (QuadData T) :=
  ⟨⟨default, default, default⟩⟩

/-- Model of `GrQuadListBase<T>`: interleaved xy entries, a separate (lazily
materialized) flat w array, and the tracked overall quad type. -/
structure QuadListState (T : Type) where
  fXYs : List (QuadData T)
  fWs : List ℚ
  fType : GrQuadType
deriving DecidableEq

namespace QuadListState

variable {T : Type}

/-- Model of `GrQuadListBase::count()`. -/
def count (s : QuadListState T) : ℕ := s.fXYs.length

/-- The default-constructed list: empty storage, `fType = kRect`. -/
def emptyList : QuadListState T := ⟨[], [], GrQuadType.kRect⟩

/-- Model of `GrQuadListBase::reserve(count, forType)`: only pre-sizes capacity of the
underlying arrays; capacity is not observable in this embedding, so the
abstract state is unchanged. -/
def reserve (s : QuadListState T) (_count : ℕ) (_forType : GrQuadType) :
    QuadListState T := s

/-- Model of `GrQuadListBase::upgradeType(type)`: raise `fType` to `type` if larger;
when the raise reaches `kPerspective`, backfill `4 * count` explicit 1 weights
for the already-present (all 2D) entries. -/
def upgradeType (s : QuadListState T) (type : GrQuadType) : QuadListState T :=
  if s.fType < type then
    { s with
      fType := type,
      fWs := if type = GrQuadType.kPerspective then
               s.fWs ++ List.replicate (4 * s.count) 1
             else s.fWs }
  else s

/-- Model of `GrQuadListBase::pushBackImpl(const GrQuad&, GrQuadType)`: upgrade the
type, append the xy entry (metadata default-constructed, to be set by the
subclass), and append 4 implicit-1 weights when the list stores weights. -/
def pushBackImpl [Inhabited T] (s : QuadListState T) (quad : GrQuad)
    (type : GrQuadType) : QuadListState T :=
  let s := s.upgradeType type
  let s := { s with fXYs := s.fXYs ++ [⟨quad.fX, quad.fY, default⟩] }
  if s.fType = GrQuadType.kPerspective then
    { s with fWs := s.fWs ++ List.replicate 4 1 }
  else s

/-- Model of `GrQuadListBase::pushBackImpl(const GrPerspQuad&, GrQuadType)`: as above
but appending the quad's own 4 weights when the list stores weights. -/
def pushBackPerspImpl [Inhabited T] (s : QuadListState T) (quad : GrPerspQuad)
    (type : GrQuadType) : QuadListState T :=
  let s := s.upgradeType type
  let s := { s with fXYs := s.fXYs ++ [⟨quad.fX, quad.fY, default⟩] }
  if s.fType = GrQuadType.kPerspective then
    { s with fWs := s.fWs ++ [quad.fW.v0, quad.fW.v1, quad.fW.v2, quad.fW.v3] }
  else s

/-- Model of `GrQuadListBase::concatImpl(that)`: upgrade to the other list's type,
append its xy entries, and extend the w array — copying the other's explicit
ws, or materializing `4 * that.count()` implicit ones. -/
def concatImpl (s that : QuadListState T) : QuadListState T :=
  let s := s.upgradeType that.fType
  let s := { s with fXYs := s.fXYs ++ that.fXYs }
  if s.fType = GrQuadType.kPerspective then
    if that.fType = GrQuadType.kPerspective then
      { s with fWs := s.fWs ++ that.fWs }
    else
      { s with fWs := s.fWs ++ List.replicate (4 * that.count) 1 }
  else s

/-- Model of `GrQuadListBase::operator[](i)`: reconstruct a `GrPerspQuad` from the
stored xs/ys and either the materialized ws (at offset `4 * i`) or the
implicit `kNoPerspectiveWs = {1,1,1,1}`. -/
def getQuad [Inhabited T] (s : QuadListState T) (i : ℕ) : GrPerspQuad :=
  let item := s.fXYs.getD i default
  if s.fType = GrQuadType.kPerspective then
    { fX := item.fX, fY := item.fY,
      fW := ⟨s.fWs.getD (4 * i) 0, s.fWs.getD (4 * i + 1) 0,
             s.fWs.getD (4 * i + 2) 0, s.fWs.getD (4 * i + 3) 0⟩ }
  else
    { fX := item.fX, fY := item.fY, fW := V4.ones }

/-- Model of `GrTQuadList::metadata(i)` used as an lvalue: overwrite entry `i`'s
metadata in place; geometry, weights and tracked type are untouched. -/
def setMetadata [Inhabited T] (s : QuadListState T) (i : ℕ) (v : T) :
    QuadListState T :=
  { s with fXYs := s.fXYs.set i { s.fXYs.getD i default with fMetadata := v } }

/-- Model of `GrTQuadList::metadata(i)` used as an rvalue. -/
def metadata [Inhabited T] (s : QuadListState T) (i : ℕ) : T :=
  (s.fXYs.getD i default).fMetadata

end QuadListState

/-- Model of `SkMatrix`: a 3×3 transform
`[[scaleX, skewX, transX], [skewY, scaleY, transY], [persp0, persp1, persp2]]`,
entries as exact rationals. The matrix type itself is an external collaborator
of this core; only the pieces the classifier consults are modelled. -/
structure SkMatrix where
  scaleX : ℚ
  skewX : ℚ
  transX : ℚ
  skewY : ℚ
  scaleY : ℚ
  transY : ℚ
  persp0 : ℚ
  persp1 : ℚ
  persp2 : ℚ
deriving DecidableEq

/-- The identity transform. -/
def SkMatrix.identityM : SkMatrix := ⟨1, 0, 0, 0, 1, 0, 0, 0, 1⟩

/-- Map a point through the matrix with the homogeneous divide. -/
def SkMatrix.mapPt (m : SkMatrix) (x y : ℚ) : ℚ × ℚ :=
  let wd := m.persp0 * x + m.persp1 * y + m.persp2
  ((m.scaleX * x + m.skewX * y + m.transX) / wd,
   (m.skewY * x + m.scaleY * y + m.transY) / wd)

/-- The matrix has a non-trivial perspective (third) row. -/
def SkMatrix.hasPerspRow (m : SkMatrix) : Prop :=
  m.persp0 ≠ 0 ∨ m.persp1 ≠ 0 ∨ m.persp2 ≠ 1

instance (m : SkMatrix) : Decidable m.hasPerspRow :=
  inferInstanceAs (Decidable (_ ∨ _ ∨ _))

/-- The linear 2×2 part is diagonal-only or a (scaled) rotation: no shear. -/
def SkMatrix.noSkewTerm (m : SkMatrix) : Prop :=
  (m.skewX = 0 ∧ m.skewY = 0) ∨ (m.scaleX = m.scaleY ∧ m.skewX = -m.skewY)

instance (m : SkMatrix) : Decidable m.noSkewTerm :=
  inferInstanceAs (Decidable (_ ∨ _))

/-- The transform maps `rect` to an axis-aligned rectangle. Following the
corner characterization in the `GrQuad.h` classification comment: with the
corners ordered `(l,t), (l,b), (r,t), (r,b)` (the `GrQuad(SkRect)` order),
either `x0==x1 ∧ x2==x3 ∧ y0==y2 ∧ y1==y3`, or under mirrors
`x0==x2 ∧ x1==x3 ∧ y0==y1 ∧ y2==y3`. -/
def SkMatrix.mapsToAxisAlignedRect (m : SkMatrix) (r : SkRect) : Prop :=
  let c0 := m.mapPt r.fLeft r.fTop
  let c1 := m.mapPt r.fLeft r.fBottom
  let c2 := m.mapPt r.fRight r.fTop
  let c3 := m.mapPt r.fRight r.fBottom
  (c0.1 = c1.1 ∧ c2.1 = c3.1 ∧ c0.2 = c2.2 ∧ c1.2 = c3.2) ∨
  (c0.1 = c2.1 ∧ c1.1 = c3.1 ∧ c0.2 = c1.2 ∧ c2.2 = c3.2)

instance (m : SkMatrix) (r : SkRect) : Decidable (m.mapsToAxisAlignedRect r) :=
  inferInstanceAs (Decidable (_ ∨ _))

/-- Modelled from the spec: `GrQuadTypeForTransformedRect` is only declared in
`GrQuad.h`; its body is outside the provided sources. Per the spec (§4.1) the
classifier checks its cases in order, first match winning: maps-rect-to-rect
(mirroring allowed) → `kRect`; else no perspective row and no skew term →
`kRectilinear`; else no perspective row → `kStandard`; else `kPerspective`. -/
def GrQuadTypeForTransformedRect (r : SkRect) (m : SkMatrix) : GrQuadType :=
  if m.mapsToAxisAlignedRect r then GrQuadType.kRect
  else if ¬m.hasPerspRow ∧ m.noSkewTerm then GrQuadType.kRectilinear
  else if ¬m.hasPerspRow then GrQuadType.kStandard
  else GrQuadType.kPerspective

/-- Model of `GrAAType`: the requested anti-aliasing mode. The enum is external
(forward-declared in `GrQuad.h`); the spec names the modes "none" and
"coverage", and the MSAA hardware mode is kept for generality. -/
inductive GrAAType where
  | kNone
  | kCoverage
  | kMSAA
deriving DecidableEq

/-- Model of `GrQuadAAFlags`: one anti-aliasing flag per quad edge. The enum is
external (forward-declared in `GrQuad.h`). -/
structure GrQuadAAFlags where
  left : Bool
  top : Bool
  right : Bool
  bottom : Bool
deriving DecidableEq

/-- Model of `GrQuadAAFlags::kNone`: all edge flags cleared. -/
def GrQuadAAFlags.kNone : GrQuadAAFlags := ⟨false, false, false, false⟩

/-- Model of `GrQuadAAFlags::kAll`: all edge flags set. -/
def GrQuadAAFlags.kAll : GrQuadAAFlags := ⟨true, true, true, true⟩

/-- Modelled from the spec: `GrResolveAATypeForQuad` is only declared in
`GrQuad.h`; its body is outside the provided sources. The quad argument
enters the decision only through `quad.aaHasEffectOnRect()` (itself declared
but not defined in the sources), passed here as the boolean `aaEffect`. Per the
spec (§4.3): a `kRect` quad on which AA has no effect resolves to mode none
with cleared edge flags regardless of the request; otherwise a requested mode
of none forces the edge flags to none regardless of quad type; otherwise the
request passes through unchanged. -/
def GrResolveAATypeForQuad (requestedAAType : GrAAType)
    (requestedEdgeFlags : GrQuadAAFlags) (aaEffect : Bool)
    (knownQuadType : GrQuadType) : GrAAType × GrQuadAAFlags :=
  if knownQuadType = GrQuadType.kRect ∧ aaEffect = false then
    (GrAAType.kNone, GrQuadAAFlags.kNone)
  else if requestedAAType = GrAAType.kNone then
    (GrAAType.kNone, GrQuadAAFlags.kNone)
  else
    (requestedAAType, requestedEdgeFlags)

namespace QuadListState

/-- Modelled from the spec: `pushBackImpl` opens with
`SkASSERT(quad.quadType() <= type)`; `quadType()` is debug-only and its body is
outside the provided sources, so the quad's true classification is supplied
as `trueType`. The checked push fails exactly when the assertion would fire
and has no other failure channel. -/
def pushBackChecked {T : Type} [Inhabited T] (s : QuadListState T)
    (trueType : GrQuadType) (quad : GrQuad) (type : GrQuadType) :
    Option (QuadListState T) :=
  if trueType ≤ type then some (s.pushBackImpl quad type) else none

/-- Modelled from the spec: the `GrPerspQuad` overload of the checked push,
as in `pushBackChecked`. -/
def pushBackPerspChecked {T : Type} [Inhabited T] (s : QuadListState T)
    (trueType : GrQuadType) (quad : GrPerspQuad) (type : GrQuadType) :
    Option (QuadListState T) :=
  if trueType ≤ type then some (s.pushBackPerspImpl quad type) else none

end QuadListState

/-- One mutating operation on a quad list, used to quantify over "any single
operation" on the storage engine. -/
inductive ListOp (T : Type) where
  | reserve (count : ℕ) (forType : GrQuadType)
  | pushQuad (quad : GrQuad) (type : GrQuadType)
  | pushPerspQuad (quad : GrPerspQuad) (type : GrQuadType)
  | concat (that : QuadListState T)
  | setMeta (i : ℕ) (v : T)

/-- Apply one operation to a list state. -/
def ListOp.apply {T : Type} [Inhabited T] (s : QuadListState T) :
    ListOp T → QuadListState T
  | .reserve c t => s.reserve c t
  | .pushQuad q t => s.pushBackImpl q t
  | .pushPerspQuad q t => s.pushBackPerspImpl q t
  | .concat that => s.concatImpl that
  | .setMeta i v => s.setMetadata i v

/-- States reachable from the default-constructed list by `push_back` and
`concat` (the operations that grow a list). -/
inductive Reachable {T : Type} [Inhabited T] : QuadListState T → Prop where
  | empty : Reachable QuadListState.emptyList
  | push (s : QuadListState T) (q : GrQuad) (t : GrQuadType) :
      Reachable s → Reachable (s.pushBackImpl q t)
  | pushPersp (s : QuadListState T) (q : GrPerspQuad) (t : GrQuadType) :
      Reachable s → Reachable (s.pushBackPerspImpl q t)
  | concat (s u : QuadListState T) :
      Reachable s → Reachable u → Reachable (s.concatImpl u)

/-- Model of `sksg::GeometryTransform`: a node holding a child geometry and a
transform. The node types `GeometryNode` and `Transform` are external; they
stay type parameters. -/
structure GeometryTransform (G M : Type) where
  fChild : G
  fTransform : M
deriving DecidableEq

/-- Model of `GeometryTransform::Make(child, transform)`: returns the new node when
both smart pointers are non-null, else `nullptr`. -/
def GeometryTransform.Make {G M : Type} (child : Option G)
    (transform : Option M) : Option (GeometryTransform G M) :=
  match child, transform with
  | some c, some t => some ⟨c, t⟩
  | some _, none => none
  | none, _ => none

/-! Order facts about the quad-type lattice -/

theorem GrQuadType.max_def (a b : GrQuadType) : max a b = if a < b then b else a := rfl

theorem GrQuadType.le_max_left (a b : GrQuadType) : a ≤ max a b := by
  revert a b; decide

theorem GrQuadType.ne_of_lt {a b : GrQuadType} (h : a < b) : a ≠ b := by
  revert h; revert a b; decide

theorem GrQuadType.ne_persp_of_lt {a b : GrQuadType} (h : a < b) :
    a ≠ GrQuadType.kPerspective := by
  revert h; revert a b; decide

theorem GrQuadType.max_le_standard {a b : GrQuadType}
    (ha : a ≤ GrQuadType.kStandard) (hb : b ≤ GrQuadType.kStandard) :
    max a b ≤ GrQuadType.kStandard := by
  revert ha hb; revert a b; decide

theorem GrQuadType.lt_persp_of_le_standard {a : GrQuadType}
    (h : a ≤ GrQuadType.kStandard) : a < GrQuadType.kPerspective := by
  revert h; revert a; decide

theorem GrQuadType.max_eq_persp_iff (a b : GrQuadType) :
    max a b = GrQuadType.kPerspective ↔
      a = GrQuadType.kPerspective ∨ b = GrQuadType.kPerspective := by
  revert a b; decide

/-! Structural lemmas about the list operations -/

namespace QuadListState

variable {T : Type}

/-- The well-formedness invariant of the storage engine: the w array holds
exactly `4 * count` floats when the tracked type is perspective, and is empty
otherwise. -/
def WF (s : QuadListState T) : Prop :=
  s.fWs.length = if s.fType = GrQuadType.kPerspective then 4 * s.count else 0

instance (s : QuadListState T) : Decidable s.WF :=
  inferInstanceAs (Decidable (_ = _))

theorem upgradeType_fXYs (s : QuadListState T) (t : GrQuadType) :
    (s.upgradeType t).fXYs = s.fXYs := by
  unfold upgradeType; split <;> rfl

theorem upgradeType_fType (s : QuadListState T) (t : GrQuadType) :
    (s.upgradeType t).fType = max s.fType t := by
  rw [GrQuadType.max_def]; unfold upgradeType; split <;> simp_all

theorem upgradeType_count (s : QuadListState T) (t : GrQuadType) :
    (s.upgradeType t).count = s.count := by
  unfold count; rw [upgradeType_fXYs]

theorem wf_upgradeType {s : QuadListState T} (t : GrQuadType) (h : s.WF) :
    (s.upgradeType t).WF := by
  unfold WF at h ⊢
  rw [upgradeType_fType, upgradeType_count, GrQuadType.max_def]
  unfold upgradeType
  by_cases hlt : s.fType < t
  · have hne := GrQuadType.ne_persp_of_lt hlt
    by_cases hp : t = GrQuadType.kPerspective <;>
      simp_all [List.length_append, List.length_replicate]
  · simp_all

theorem wf_upgradeType_len {s : QuadListState T} (t : GrQuadType) (h : s.WF)
    (hp : (s.upgradeType t).fType = GrQuadType.kPerspective) :
    (s.upgradeType t).fWs.length = 4 * s.count := by
  have hw := wf_upgradeType t h
  unfold WF at hw
  rw [upgradeType_count] at hw
  rw [hw, if_pos hp]

theorem pushBackImpl_fType [Inhabited T] (s : QuadListState T) (q : GrQuad)
    (t : GrQuadType) : (s.pushBackImpl q t).fType = max s.fType t := by
  simp only [pushBackImpl]
  split <;> simp [upgradeType_fType]

theorem pushBackPerspImpl_fType [Inhabited T] (s : QuadListState T)
    (q : GrPerspQuad) (t : GrQuadType) :
    (s.pushBackPerspImpl q t).fType = max s.fType t := by
  simp only [pushBackPerspImpl]
  split <;> simp [upgradeType_fType]

theorem concatImpl_fType (s that : QuadListState T) :
    (s.concatImpl that).fType = max s.fType that.fType := by
  simp only [concatImpl]
  split
  · split <;> simp [upgradeType_fType]
  · simp [upgradeType_fType]

theorem pushBackImpl_fXYs [Inhabited T] (s : QuadListState T) (q : GrQuad)
    (t : GrQuadType) :
    (s.pushBackImpl q t).fXYs = s.fXYs ++ [⟨q.fX, q.fY, default⟩] := by
  simp only [pushBackImpl]
  split <;> simp [upgradeType_fXYs]

theorem pushBackPerspImpl_fXYs [Inhabited T] (s : QuadListState T)
    (q : GrPerspQuad) (t : GrQuadType) :
    (s.pushBackPerspImpl q t).fXYs = s.fXYs ++ [⟨q.fX, q.fY, default⟩] := by
  simp only [pushBackPerspImpl]
  split <;> simp [upgradeType_fXYs]

theorem concatImpl_fXYs (s that : QuadListState T) :
    (s.concatImpl that).fXYs = s.fXYs ++ that.fXYs := by
  simp only [concatImpl]
  split
  · split <;> simp [upgradeType_fXYs]
  · simp [upgradeType_fXYs]

theorem pushBackImpl_count [Inhabited T] (s : QuadListState T) (q : GrQuad)
    (t : GrQuadType) : (s.pushBackImpl q t).count = s.count + 1 := by
  unfold count; rw [pushBackImpl_fXYs]; simp

theorem pushBackPerspImpl_count [Inhabited T] (s : QuadListState T)
    (q : GrPerspQuad) (t : GrQuadType) :
    (s.pushBackPerspImpl q t).count = s.count + 1 := by
  unfold count; rw [pushBackPerspImpl_fXYs]; simp

theorem concatImpl_count (s that : QuadListState T) :
    (s.concatImpl that).count = s.count + that.count := by
  unfold count; rw [concatImpl_fXYs]; simp

theorem wf_pushBackImpl [Inhabited T] {s : QuadListState T} (q : GrQuad)
    (t : GrQuadType) (h : s.WF) : (s.pushBackImpl q t).WF := by
  have hw := wf_upgradeType t h
  unfold WF at hw ⊢
  unfold count at hw ⊢
  rw [upgradeType_fXYs] at hw
  simp only [pushBackImpl]
  split
  · next hp =>
    simp only [hp] at hw ⊢
    simp [upgradeType_fXYs] at hw ⊢
    omega
  · next hp =>
    simp only [hp] at hw ⊢
    simp [hp] at hw ⊢
    exact hw

theorem wf_pushBackPerspImpl [Inhabited T] {s : QuadListState T}
    (q : GrPerspQuad) (t : GrQuadType) (h : s.WF) :
    (s.pushBackPerspImpl q t).WF := by
  have hw := wf_upgradeType t h
  unfold WF at hw ⊢
  unfold count at hw ⊢
  rw [upgradeType_fXYs] at hw
  simp only [pushBackPerspImpl]
  split
  · next hp =>
    simp only [hp] at hw ⊢
    simp [upgradeType_fXYs] at hw ⊢
    omega
  · next hp =>
    simp only [hp] at hw ⊢
    simp [hp] at hw ⊢
    exact hw

theorem wf_concatImpl {s that : QuadListState T} (hs : s.WF) (ht : that.WF) :
    (s.concatImpl that).WF := by
  have hw := wf_upgradeType that.fType hs
  unfold WF at hw ht ⊢
  unfold count at hw ht ⊢
  rw [upgradeType_fXYs] at hw
  simp only [concatImpl]
  split
  · next hp =>
    simp only [hp] at hw ⊢
    split
    · next hq =>
      simp only [hq] at ht
      simp [upgradeType_fXYs] at hw ht ⊢
      omega
    · next hq =>
      simp [hq] at ht
      simp [upgradeType_fXYs, count] at hw ⊢
      omega
  · next hp =>
    simp only [hp] at hw ⊢
    simp [hp] at hw ⊢
    exact hw

theorem wf_emptyList : (emptyList (T := T)).WF := by
  unfold WF emptyList count; simp

theorem wf_of_reachable [Inhabited T] {s : QuadListState T}
    (h : Reachable s) : s.WF := by
  induction h with
  | empty => exact wf_emptyList
  | push s q t _ ih => exact wf_pushBackImpl q t ih
  | pushPersp s q t _ ih => exact wf_pushBackPerspImpl q t ih
  | concat s u _ _ ihs ihu => exact wf_concatImpl ihs ihu

end QuadListState

namespace QuadListState

variable {T : Type}

theorem getQuad_persp [Inhabited T] (s : QuadListState T) (i : ℕ)
    (h : s.fType = GrQuadType.kPerspective) :
    s.getQuad i =
      ⟨(s.fXYs.getD i default).fX, (s.fXYs.getD i default).fY,
       ⟨s.fWs.getD (4 * i) 0, s.fWs.getD (4 * i + 1) 0,
        s.fWs.getD (4 * i + 2) 0, s.fWs.getD (4 * i + 3) 0⟩⟩ := by
  simp [getQuad, h]

theorem getQuad_not_persp [Inhabited T] (s : QuadListState T) (i : ℕ)
    (h : s.fType ≠ GrQuadType.kPerspective) :
    s.getQuad i =
      ⟨(s.fXYs.getD i default).fX, (s.fXYs.getD i default).fY, V4.ones⟩ := by
  simp [getQuad, h]

theorem concatImpl_fWs_persp (A B : QuadListState T) (hA : A.WF)
    (hc : (A.concatImpl B).fType = GrQuadType.kPerspective) :
    ∃ l : List ℚ, l.length = 4 * A.count ∧
      (A.concatImpl B).fWs =
        l ++ (if B.fType = GrQuadType.kPerspective then B.fWs
              else List.replicate (4 * B.count) 1) := by
  have hup : (A.upgradeType B.fType).fType = GrQuadType.kPerspective := by
    rw [upgradeType_fType]
    rw [concatImpl_fType] at hc
    exact hc
  have hlen := wf_upgradeType_len B.fType hA hup
  refine ⟨(A.upgradeType B.fType).fWs, hlen, ?_⟩
  simp only [concatImpl]
  split
  · next hp =>
    split
    · next hq => simp [hq]
    · next hq => simp [hq]
  · next hp => exact absurd hup hp

end QuadListState

/-- A helper fact of the lattice: joining with `kPerspective` yields
`kPerspective`. -/
theorem GrQuadType.max_persp_right (a : GrQuadType) :
    max a GrQuadType.kPerspective = GrQuadType.kPerspective := by
  revert a; decide

/-- A replicate of ones reads back 1 at every in-range index. -/
theorem List.getD_replicate_one {n j : ℕ} (h : j < n) :
    (List.replicate n (1 : ℚ)).getD j 0 = 1 := by
  rw [List.getD_eq_getElem _ _ (by simpa using h)]
  simp

/-- C1: for any two well-formed quad lists `A` and `B`, `A.concat(B)` has
tracked type `max(tA, tB)`, count `count(A) + count(B)`, and its entry at
every index `count(A) + i` — read through the indexed `GrPerspQuad` view,
weights included — equals `B[i]`. -/
theorem concat_joins_types_and_appends_entries {T : Type} [Inhabited T]
    (A B : QuadListState T) (hA : A.WF) (hB : B.WF) :
    (A.concatImpl B).fType = max A.fType B.fType ∧
    (A.concatImpl B).count = A.count + B.count ∧
    ∀ i, i < B.count →
      (A.concatImpl B).getQuad (A.count + i) = B.getQuad i := by
  refine ⟨QuadListState.concatImpl_fType A B, QuadListState.concatImpl_count A B, ?_⟩
  intro i hi
  have hxy : ((A.concatImpl B).fXYs.getD (A.count + i) default) =
      B.fXYs.getD i default := by
    rw [QuadListState.concatImpl_fXYs]
    rw [List.getD_append_right _ _ _ _ (by simp [QuadListState.count])]
    congr 1
    simp [QuadListState.count]
  by_cases hc : (A.concatImpl B).fType = GrQuadType.kPerspective
  · obtain ⟨l, hl, hws⟩ := QuadListState.concatImpl_fWs_persp A B hA hc
    rw [QuadListState.getQuad_persp _ _ hc, hxy]
    by_cases hb : B.fType = GrQuadType.kPerspective
    · rw [QuadListState.getQuad_persp _ _ hb]
      simp only [hws, if_pos hb]
      rw [GrPerspQuad.mk.injEq]
      refine ⟨rfl, rfl, ?_⟩
      rw [V4.mk.injEq]
      refine ⟨?_, ?_, ?_, ?_⟩ <;>
      · rw [List.getD_append_right _ _ _ _ (by omega)]
        congr 1
        omega
    · rw [QuadListState.getQuad_not_persp _ _ hb]
      simp only [hws, if_neg hb]
      rw [GrPerspQuad.mk.injEq]
      refine ⟨rfl, rfl, ?_⟩
      rw [V4.mk.injEq, V4.ones]
      have hcnt : i < B.count := hi
      refine ⟨?_, ?_, ?_, ?_⟩ <;>
      · rw [List.getD_append_right _ _ _ _ (by omega)]
        rw [show ∀ k, k - l.length = k - 4 * A.count from fun k => by rw [hl]]
        exact List.getD_replicate_one (by omega)
  · have hb : B.fType ≠ GrQuadType.kPerspective := by
      intro hbp
      apply hc
      rw [QuadListState.concatImpl_fType, hbp, GrQuadType.max_persp_right]
    rw [QuadListState.getQuad_not_persp _ _ hc, QuadListState.getQuad_not_persp _ _ hb,
      hxy]

/-- Concrete list fixtures used to instantiate the concat theorem. -/
def sampleListP : QuadListState Unit :=
  ⟨[⟨⟨0, 0, 1, 1⟩, ⟨0, 1, 0, 1⟩, ()⟩], [1, 1, 1, 2], GrQuadType.kPerspective⟩

def sampleListS : QuadListState Unit :=
  ⟨[⟨⟨5, 5, 6, 6⟩, ⟨0, 1, 0, 1⟩, ()⟩], [], GrQuadType.kStandard⟩

/-- Witness for C1 at concrete lists: a perspective list concatenated with a
standard list reproduces the standard list's entry at the shifted index. -/
theorem concat_joins_types_and_appends_entries_witness :
    (sampleListP.concatImpl sampleListS).getQuad (sampleListP.count + 0) =
      sampleListS.getQuad 0 :=
  (concat_joins_types_and_appends_entries sampleListP sampleListS
    (by decide) (by decide)).2.2 0 (by decide)

/-- A helper fact of the lattice: nothing at or below `kStandard` is
`kPerspective`. -/
theorem GrQuadType.ne_persp_of_le_standard {a : GrQuadType}
    (h : a ≤ GrQuadType.kStandard) : a ≠ GrQuadType.kPerspective := by
  revert h; revert a; decide

namespace QuadListState

variable {T : Type}

/-- Pushing quads whose declared types stay at or below `kStandard` keeps the
tracked type at or below `kStandard`, keeps the w array empty, and grows the
count by one per push. -/
theorem foldl_pushBack_affine [Inhabited T] (quads : List (GrQuad × GrQuadType))
    (hts : ∀ p ∈ quads, p.2 ≤ GrQuadType.kStandard) :
    ∀ s : QuadListState T, s.fType ≤ GrQuadType.kStandard → s.fWs = [] →
      ((quads.foldl (fun acc p => acc.pushBackImpl p.1 p.2) s).fType ≤
          GrQuadType.kStandard ∧
        (quads.foldl (fun acc p => acc.pushBackImpl p.1 p.2) s).fWs = [] ∧
        (quads.foldl (fun acc p => acc.pushBackImpl p.1 p.2) s).count =
          s.count + quads.length) := by
  induction quads with
  | nil => intro s h1 h2; exact ⟨h1, h2, rfl⟩
  | cons p rest ih =>
    intro s h1 h2
    have hp : p.2 ≤ GrQuadType.kStandard := hts p (List.mem_cons_self p rest)
    have hrest : ∀ q ∈ rest, q.2 ≤ GrQuadType.kStandard := fun q hq =>
      hts q (List.mem_cons_of_mem p hq)
    have hmax : max s.fType p.2 ≤ GrQuadType.kStandard :=
      GrQuadType.max_le_standard h1 hp
    have hne : max s.fType p.2 ≠ GrQuadType.kPerspective :=
      GrQuadType.ne_persp_of_le_standard hmax
    have hstep_t : (s.pushBackImpl p.1 p.2).fType = max s.fType p.2 :=
      pushBackImpl_fType s p.1 p.2
    have hstep_w : (s.pushBackImpl p.1 p.2).fWs = [] := by
      simp only [pushBackImpl]
      split
      · next hcond =>
        rw [upgradeType_fType] at hcond
        exact absurd hcond hne
      · next hcond =>
        simp only [upgradeType]
        split
        · next hlt =>
          have : p.2 ≠ GrQuadType.kPerspective := fun hpp => by
            rw [hpp] at hp; revert hp; decide
          simp [this, h2]
        · exact h2
    have := ih hrest (s.pushBackImpl p.1 p.2)
      (by rw [hstep_t]; exact hmax) hstep_w
    simp only [List.foldl_cons]
    refine ⟨this.1, this.2.1, ?_⟩
    rw [this.2.2, pushBackImpl_count]
    simp [List.length_cons]
    omega

end QuadListState

/-- C2: pushing any number of quads with declared types at most `kStandard`
into a fresh list and then one quad with declared type `kPerspective` makes
the tracked type `kPerspective`, and every previously pushed entry reads back
through `operator[]` with all four weights equal to 1. -/
theorem perspective_push_backfills_ones {T : Type} [Inhabited T]
    (quads : List (GrQuad × GrQuadType))
    (hts : ∀ p ∈ quads, p.2 ≤ GrQuadType.kStandard) (q : GrPerspQuad) :
    (((quads.foldl (fun acc p => acc.pushBackImpl p.1 p.2)
          (QuadListState.emptyList (T := T))).pushBackPerspImpl q
          GrQuadType.kPerspective).fType = GrQuadType.kPerspective) ∧
    ∀ i, i < quads.length →
      ((((quads.foldl (fun acc p => acc.pushBackImpl p.1 p.2)
          (QuadListState.emptyList (T := T))).pushBackPerspImpl q
          GrQuadType.kPerspective)).getQuad i).fW = V4.ones := by
  have hfold := QuadListState.foldl_pushBack_affine (T := T) quads hts
    QuadListState.emptyList
    (by show GrQuadType.kRect ≤ GrQuadType.kStandard; decide) rfl
  set r := quads.foldl (fun acc p => acc.pushBackImpl p.1 p.2)
    (QuadListState.emptyList (T := T)) with hr
  obtain ⟨hr1, hr2, hr3⟩ := hfold
  have hcnt : r.count = quads.length := by
    rw [hr3]
    simp [QuadListState.emptyList, QuadListState.count]
  have hlt : r.fType < GrQuadType.kPerspective :=
    GrQuadType.lt_persp_of_le_standard hr1
  have htype : (r.pushBackPerspImpl q GrQuadType.kPerspective).fType =
      GrQuadType.kPerspective := by
    rw [QuadListState.pushBackPerspImpl_fType, GrQuadType.max_persp_right]
  have hws : (r.pushBackPerspImpl q GrQuadType.kPerspective).fWs =
      List.replicate (4 * quads.length) 1 ++
        [q.fW.v0, q.fW.v1, q.fW.v2, q.fW.v3] := by
    have hcnt2 : r.fXYs.length = quads.length := hcnt
    simp only [QuadListState.pushBackPerspImpl, QuadListState.upgradeType]
    rw [if_pos hlt]
    simp [hr2, hcnt2, QuadListState.count]
  refine ⟨htype, ?_⟩
  intro i hi
  rw [QuadListState.getQuad_persp _ _ htype, hws]
  simp only [V4.ones, V4.mk.injEq]
  refine ⟨?_, ?_, ?_, ?_⟩ <;>
  · rw [List.getD_append _ _ _ _ (by simp [List.length_replicate]; omega)]
    exact List.getD_replicate_one (by omega)

/-- Witness for C2: two rect-type pushes followed by one perspective push at
concrete values; the tracked type becomes perspective and entry 0 reads back
with unit weights. -/
theorem perspective_push_backfills_ones_witness :
    ((([((⟨⟨0, 0, 1, 1⟩, ⟨0, 1, 0, 1⟩⟩ : GrQuad), GrQuadType.kRect),
        ((⟨⟨2, 2, 3, 3⟩, ⟨0, 1, 0, 1⟩⟩ : GrQuad), GrQuadType.kStandard)].foldl
          (fun acc p => acc.pushBackImpl p.1 p.2)
          (QuadListState.emptyList (T := Unit))).pushBackPerspImpl
          (⟨⟨0, 0, 4, 4⟩, ⟨0, 4, 0, 4⟩, ⟨1, 1, 1, 2⟩⟩ : GrPerspQuad)
          GrQuadType.kPerspective).getQuad 0).fW = V4.ones :=
  (perspective_push_backfills_ones
    [((⟨⟨0, 0, 1, 1⟩, ⟨0, 1, 0, 1⟩⟩ : GrQuad), GrQuadType.kRect),
     ((⟨⟨2, 2, 3, 3⟩, ⟨0, 1, 0, 1⟩⟩ : GrQuad), GrQuadType.kStandard)]
    (by decide)
    (⟨⟨0, 0, 4, 4⟩, ⟨0, 4, 0, 4⟩, ⟨1, 1, 1, 2⟩⟩ : GrPerspQuad)).2 0 (by decide)

/-- C3: in every list state reachable from the empty list by `push_back` and
`concat`: a perspective tracked type comes with exactly `4 * count` stored
weights, and a tracked type below perspective comes with an empty weight
array and every weight read through `operator[]` equal to 1. -/
theorem reachable_weight_channel_invariant {T : Type} [Inhabited T]
    (s : QuadListState T) (h : Reachable s) :
    (s.fType = GrQuadType.kPerspective → s.fWs.length = 4 * s.count) ∧
    (s.fType < GrQuadType.kPerspective →
      s.fWs = [] ∧ ∀ i, (s.getQuad i).fW = V4.ones) := by
  have hw := QuadListState.wf_of_reachable h
  unfold QuadListState.WF at hw
  constructor
  · intro hp
    rw [hw, if_pos hp]
  · intro hlt
    have hne : s.fType ≠ GrQuadType.kPerspective := GrQuadType.ne_of_lt hlt
    have hnil : s.fWs = [] := by
      rw [if_neg hne] at hw
      exact List.length_eq_zero.mp hw
    refine ⟨hnil, fun i => ?_⟩
    rw [QuadListState.getQuad_not_persp _ _ hne]

/-- Witness for C3 at a concrete reachable state: one rect-type push leaves
the weight array empty. -/
theorem reachable_weight_channel_invariant_witness :
    ((QuadListState.emptyList (T := Unit)).pushBackImpl
      ⟨⟨0, 0, 1, 1⟩, ⟨0, 1, 0, 1⟩⟩ GrQuadType.kRect).fWs = [] :=
  ((reachable_weight_channel_invariant _
      (Reachable.push _ ⟨⟨0, 0, 1, 1⟩, ⟨0, 1, 0, 1⟩⟩ GrQuadType.kRect
        Reachable.empty)).2 (by decide)).1

/-- A helper fact of the lattice: the order is reflexive. -/
theorem GrQuadType.le_refl (a : GrQuadType) : a ≤ a := Nat.le.refl

/-- C7: no single list operation — reserve, either push overload, concat, or
a metadata write — ever decreases the tracked quad type, from any starting
state and for any argument. -/
theorem tracked_type_never_decreases {T : Type} [Inhabited T]
    (s : QuadListState T) (op : ListOp T) : s.fType ≤ (op.apply s).fType := by
  cases op with
  | reserve c t => exact GrQuadType.le_refl _
  | pushQuad q t =>
    show s.fType ≤ (s.pushBackImpl q t).fType
    rw [QuadListState.pushBackImpl_fType]
    exact GrQuadType.le_max_left _ _
  | pushPerspQuad q t =>
    show s.fType ≤ (s.pushBackPerspImpl q t).fType
    rw [QuadListState.pushBackPerspImpl_fType]
    exact GrQuadType.le_max_left _ _
  | concat that =>
    show s.fType ≤ (s.concatImpl that).fType
    rw [QuadListState.concatImpl_fType]
    exact GrQuadType.le_max_left _ _
  | setMeta i v => exact GrQuadType.le_refl _

/-- C4 (counterexample): the claim that a known type strictly above `kRect`
passes the requested AA type and edge flags through unchanged fails when the
requested AA type is already none — the resolver then clears the edge flags
even for a `kStandard` quad. -/
theorem resolve_aa_passthrough_counterexample :
    GrQuadType.kRect < GrQuadType.kStandard ∧
    GrResolveAATypeForQuad GrAAType.kNone GrQuadAAFlags.kAll true
        GrQuadType.kStandard ≠
      (GrAAType.kNone, GrQuadAAFlags.kAll) := by
  constructor
  · decide
  · decide

/-- C4 (amended): a `kRect` quad on which AA has no effect resolves to AA
type none with cleared edge flags, regardless of the requested AA type and
edge flags; a known type strictly above `kRect` keeps the requested AA type,
and keeps the requested edge flags unless the requested AA type is none, in
which case the edge flags are cleared. -/
theorem resolve_aa_rect_downgrade_and_passthrough (req : GrAAType)
    (flags : GrQuadAAFlags) (eff : Bool) (kt : GrQuadType) :
    (kt = GrQuadType.kRect → eff = false →
      GrResolveAATypeForQuad req flags eff kt =
        (GrAAType.kNone, GrQuadAAFlags.kNone)) ∧
    (GrQuadType.kRect < kt →
      GrResolveAATypeForQuad req flags eff kt =
        (req, if req = GrAAType.kNone then GrQuadAAFlags.kNone else flags)) := by
  constructor
  · intro hkt heff
    simp [GrResolveAATypeForQuad, hkt, heff]
  · intro hkt
    have hne : kt ≠ GrQuadType.kRect := by
      intro hrect
      rw [hrect] at hkt
      revert hkt
      decide
    by_cases hreq : req = GrAAType.kNone <;>
      simp [GrResolveAATypeForQuad, hne, hreq]

/-- Witness for C4: the spec's end-to-end cases — a pixel-aligned rect quad
with requested coverage AA and all edges resolves to (none, no edges); a
standard quad with the same request resolves unchanged. -/
theorem resolve_aa_rect_downgrade_and_passthrough_witness :
    GrResolveAATypeForQuad GrAAType.kCoverage GrQuadAAFlags.kAll false
        GrQuadType.kRect = (GrAAType.kNone, GrQuadAAFlags.kNone) ∧
    GrResolveAATypeForQuad GrAAType.kCoverage GrQuadAAFlags.kAll true
        GrQuadType.kStandard = (GrAAType.kCoverage, GrQuadAAFlags.kAll) := by
  constructor
  · exact (resolve_aa_rect_downgrade_and_passthrough GrAAType.kCoverage
      GrQuadAAFlags.kAll false GrQuadType.kRect).1 rfl rfl
  · have h := (resolve_aa_rect_downgrade_and_passthrough GrAAType.kCoverage
      GrQuadAAFlags.kAll true GrQuadType.kStandard).2 (by decide)
    simpa using h

/-- A pure 90-degree rotation: `(x, y) ↦ (-y, x)`. -/
def rot90 : SkMatrix := ⟨0, -1, 0, 1, 0, 0, 0, 0, 1⟩

/-- C5 (counterexample): a pure 90-degree rotation maps every rectangle to an
axis-aligned rectangle under the mirrored corner pairing, so the classifier
returns `kRect` — not `kRectilinear` as claimed. -/
theorem classify_rot90_counterexample :
    GrQuadTypeForTransformedRect ⟨0, 0, 1, 2⟩ rot90 = GrQuadType.kRect ∧
    GrQuadTypeForTransformedRect ⟨0, 0, 1, 2⟩ rot90 ≠ GrQuadType.kRectilinear := by
  have h : rot90.mapsToAxisAlignedRect ⟨0, 0, 1, 2⟩ := by
    simp [SkMatrix.mapsToAxisAlignedRect, SkMatrix.mapPt, rot90]
  constructor
  · simp [GrQuadTypeForTransformedRect, h]
  · simp [GrQuadTypeForTransformedRect, h]

/-- C5 (amended): the classifier checks its cases in order with first match
winning — maps-to-axis-aligned-rect (mirroring allowed) gives `kRect`, else
no perspective row and no skew gives `kRectilinear`, else no perspective row
gives `kStandard`, else `kPerspective`; every rectangle under the identity
classifies as `kRect`, and under a pure 90-degree rotation also as `kRect`
(hence never `kStandard`). -/
theorem classify_cases_in_order (r : SkRect) (m : SkMatrix) :
    (m.mapsToAxisAlignedRect r →
      GrQuadTypeForTransformedRect r m = GrQuadType.kRect) ∧
    (¬m.mapsToAxisAlignedRect r → ¬m.hasPerspRow → m.noSkewTerm →
      GrQuadTypeForTransformedRect r m = GrQuadType.kRectilinear) ∧
    (¬m.mapsToAxisAlignedRect r → ¬m.hasPerspRow → ¬m.noSkewTerm →
      GrQuadTypeForTransformedRect r m = GrQuadType.kStandard) ∧
    (¬m.mapsToAxisAlignedRect r → m.hasPerspRow →
      GrQuadTypeForTransformedRect r m = GrQuadType.kPerspective) ∧
    GrQuadTypeForTransformedRect r SkMatrix.identityM = GrQuadType.kRect ∧
    GrQuadTypeForTransformedRect r rot90 = GrQuadType.kRect := by
  refine ⟨?_, ?_, ?_, ?_, ?_, ?_⟩
  · intro h
    simp [GrQuadTypeForTransformedRect, h]
  · intro h1 h2 h3
    simp [GrQuadTypeForTransformedRect, h1, h2, h3]
  · intro h1 h2 h3
    simp [GrQuadTypeForTransformedRect, h1, h2, h3]
  · intro h1 h2
    simp [GrQuadTypeForTransformedRect, h1, h2]
  · have h : SkMatrix.identityM.mapsToAxisAlignedRect r := by
      simp [SkMatrix.mapsToAxisAlignedRect, SkMatrix.mapPt, SkMatrix.identityM]
    simp [GrQuadTypeForTransformedRect, h]
  · have h : rot90.mapsToAxisAlignedRect r := by
      simp [SkMatrix.mapsToAxisAlignedRect, SkMatrix.mapPt, rot90]
    simp [GrQuadTypeForTransformedRect, h]

/-- Witness for C5: a unit skew transform classifies a concrete rectangle as
`kStandard` through the third case. -/
theorem classify_cases_in_order_witness :
    GrQuadTypeForTransformedRect ⟨0, 0, 1, 2⟩ ⟨1, 1, 0, 0, 1, 0, 0, 0, 1⟩ =
      GrQuadType.kStandard :=
  (classify_cases_in_order ⟨0, 0, 1, 2⟩ ⟨1, 1, 0, 0, 1, 0, 0, 0, 1⟩).2.2.1
    (by simp [SkMatrix.mapsToAxisAlignedRect, SkMatrix.mapPt])
    (by norm_num [SkMatrix.hasPerspRow])
    (by norm_num [SkMatrix.noSkewTerm])

/-- C6: `GrPerspQuad::bounds(type)` performs the homogeneous divide (multiply
by the lane-wise reciprocal of the weights) exactly when the passed type is
`kPerspective`, and otherwise returns the bounding box of the raw
coordinates; with all weights 2 the perspective bounds are the bounds of the
halved coordinates, and with all weights 1 they are the raw bounds. -/
theorem bounds_divides_only_for_perspective (q : GrPerspQuad) (t : GrQuadType) :
    (t = GrQuadType.kPerspective →
      q.bounds t = ⟨(q.fX.mul q.fW.inv).minc, (q.fY.mul q.fW.inv).minc,
                    (q.fX.mul q.fW.inv).maxc, (q.fY.mul q.fW.inv).maxc⟩) ∧
    (t ≠ GrQuadType.kPerspective →
      q.bounds t = ⟨q.fX.minc, q.fY.minc, q.fX.maxc, q.fY.maxc⟩) ∧
    (q.fW = ⟨2, 2, 2, 2⟩ →
      q.bounds GrQuadType.kPerspective =
        ⟨(q.fX.mul ⟨1/2, 1/2, 1/2, 1/2⟩).minc,
         (q.fY.mul ⟨1/2, 1/2, 1/2, 1/2⟩).minc,
         (q.fX.mul ⟨1/2, 1/2, 1/2, 1/2⟩).maxc,
         (q.fY.mul ⟨1/2, 1/2, 1/2, 1/2⟩).maxc⟩) ∧
    (q.fW = V4.ones →
      q.bounds GrQuadType.kPerspective =
        ⟨q.fX.minc, q.fY.minc, q.fX.maxc, q.fY.maxc⟩) := by
  refine ⟨?_, ?_, ?_, ?_⟩
  · intro h
    simp [GrPerspQuad.bounds, h]
  · intro h
    simp [GrPerspQuad.bounds, h]
  · intro h
    simp only [GrPerspQuad.bounds, if_pos rfl, h, V4.inv]
    norm_num
  · intro h
    simp only [GrPerspQuad.bounds, if_pos rfl, h, V4.ones, V4.inv, V4.mul]
    norm_num

/-- Witness for C6: a concrete quad with weights (2,2,2,2) has perspective
bounds equal to the bounds of its halved coordinates. -/
theorem bounds_divides_only_for_perspective_witness :
    GrPerspQuad.bounds ⟨⟨2, 4, 2, 4⟩, ⟨2, 2, 6, 6⟩, ⟨2, 2, 2, 2⟩⟩
      GrQuadType.kPerspective = ⟨1, 1, 2, 3⟩ := by
  have h := (bounds_divides_only_for_perspective
    ⟨⟨2, 4, 2, 4⟩, ⟨2, 2, 6, 6⟩, ⟨2, 2, 2, 2⟩⟩ GrQuadType.kPerspective).2.2.1 rfl
  rw [h]
  norm_num [V4.mul, V4.minc, V4.maxc, min_def, max_def]

/-- C8: when the caller's contract holds — the quad's true classification is
at most the declared type — the debug assertion in both push overloads
passes, the checked pushes succeed (return `some`), and each push grows the
count by one with no other failure channel. -/
theorem push_assert_passes_under_contract {T : Type} [Inhabited T]
    (s : QuadListState T) (trueType : GrQuadType) (q : GrQuad)
    (qp : GrPerspQuad) (type : GrQuadType) (h : trueType ≤ type) :
    s.pushBackChecked trueType q type = some (s.pushBackImpl q type) ∧
    s.pushBackPerspChecked trueType qp type =
      some (s.pushBackPerspImpl qp type) ∧
    (s.pushBackImpl q type).count = s.count + 1 ∧
    (s.pushBackPerspImpl qp type).count = s.count + 1 := by
  refine ⟨?_, ?_, QuadListState.pushBackImpl_count s q type,
    QuadListState.pushBackPerspImpl_count s qp type⟩
  · simp [QuadListState.pushBackChecked, h]
  · simp [QuadListState.pushBackPerspChecked, h]

/-- Witness for C8: a rect-classified quad pushed with declared type
`kStandard` passes the checked push. -/
theorem push_assert_passes_under_contract_witness :
    (QuadListState.emptyList (T := Unit)).pushBackChecked GrQuadType.kRect
      ⟨⟨0, 0, 1, 1⟩, ⟨0, 1, 0, 1⟩⟩ GrQuadType.kStandard =
      some ((QuadListState.emptyList (T := Unit)).pushBackImpl
        ⟨⟨0, 0, 1, 1⟩, ⟨0, 1, 0, 1⟩⟩ GrQuadType.kStandard) :=
  (push_assert_passes_under_contract (QuadListState.emptyList (T := Unit))
    GrQuadType.kRect ⟨⟨0, 0, 1, 1⟩, ⟨0, 1, 0, 1⟩⟩
    ⟨⟨0, 0, 1, 1⟩, ⟨0, 1, 0, 1⟩, ⟨1, 1, 1, 1⟩⟩ GrQuadType.kStandard
    (by decide)).1

/-- C9: `hasPerspective()` is true exactly when one of the four stored
weights differs from 1, and is false for every quad read out of a list whose
tracked type is below `kPerspective`. -/
theorem hasPerspective_iff_some_weight_differs {T : Type} [Inhabited T]
    (q : GrPerspQuad) (s : QuadListState T) (i : ℕ) :
    (q.hasPerspective = true ↔
      (q.fW.v0 ≠ 1 ∨ q.fW.v1 ≠ 1 ∨ q.fW.v2 ≠ 1 ∨ q.fW.v3 ≠ 1)) ∧
    (s.fType < GrQuadType.kPerspective →
      (s.getQuad i).hasPerspective = false) := by
  constructor
  · simp [GrPerspQuad.hasPerspective, Bool.or_eq_true, decide_eq_true_iff,
      or_assoc]
  · intro h
    rw [QuadListState.getQuad_not_persp _ _ (GrQuadType.ne_of_lt h)]
    simp [GrPerspQuad.hasPerspective, V4.ones]

/-- Witness for C9: a quad read out of the (rect-typed) empty list reports no
perspective. -/
theorem hasPerspective_iff_some_weight_differs_witness :
    ((QuadListState.emptyList (T := Unit)).getQuad 0).hasPerspective = false :=
  (hasPerspective_iff_some_weight_differs
    ⟨⟨0, 0, 0, 0⟩, ⟨0, 0, 0, 0⟩, ⟨1, 1, 1, 2⟩⟩
    (QuadListState.emptyList (T := Unit)) 0).2 (by decide)

/-- C10: `GeometryTransform::Make` returns null exactly when one of its two
arguments is null, and otherwise returns a node holding exactly the two
arguments. -/
theorem make_returns_node_iff_both_nonnull {G M : Type} (child : Option G)
    (transform : Option M) (c : G) (t : M) :
    (GeometryTransform.Make child transform = none ↔
      child = none ∨ transform = none) ∧
    GeometryTransform.Make (some c) (some t) = some ⟨c, t⟩ := by
  constructor
  · cases child <;> cases transform <;> simp [GeometryTransform.Make]
  · rfl
